import Mathlib

/-!
Shallow embedding of the `cmd` library (cmd.hpp): the bash-like tokenizer,
the `from_string` / `to_string` numeric conversion customization points,
the type-erased dispatcher `erased_func::dispatch_func`, and
`registry::call(name, tokens)`.  Strings are modeled as `List Char`,
`std::optional` as `Option`, machine integer ranges as explicit
`[lo, hi]` bounds on `Int`.
-/

namespace Cmd

/-- The single-quote character (ASCII 39), written via `Char.ofNat`. -/
def squote : Char := Char.ofNat 39

/-- The double-quote character (ASCII 34). -/
def dquote : Char := Char.ofNat 34

/-- The space character (ASCII 32). -/
def space : Char := Char.ofNat 32

/-- Tokenizer exit condition, mirroring the `char` returned by `tokenize`
(cmd.hpp line 212): `0`, `'\''` or `'"'`. -/
inductive QuoteState where
  | none
  | unterminatedSingle
  | unterminatedDouble
deriving DecidableEq

/-- Model of `line.find(c)` followed by the two `substr` calls
(cmd.hpp lines 221-229): splits `l` at the first occurrence of `c` into the
part before it and the part after it (the occurrence itself consumed), or
`Option.none` when `c` does not occur (`npos`). -/
def breakOn (c : Char) : List Char → Option (List Char × List Char)
  | [] => Option.none
  | x :: xs =>
    if x = c then Option.some ([], xs)
    else
      match breakOn c xs with
      | Option.none => Option.none
      | Option.some (pre, post) => Option.some (x :: pre, post)

/-- Model of `line.find_first_of(" \"'")` followed by the `substr` calls
(cmd.hpp lines 247-268): splits `l` at the first space, double quote or
single quote, also returning which character was found. -/
def breakOnAny : List Char → Option (List Char × Char × List Char)
  | [] => Option.none
  | x :: xs =>
    if x = space ∨ x = dquote ∨ x = squote then Option.some ([], x, xs)
    else
      match breakOnAny xs with
      | Option.none => Option.none
      | Option.some (pre, c, post) => Option.some (x :: pre, c, post)

/-- The `while(line.size() > 0)` loop of `tokenize` (cmd.hpp lines 217-275).
State: `sqm`/`dqm` are the `sq`/`dq` flags, `toks` the tokens pushed so far,
`cur` the token under construction, `line` the rest of the input.  `fuel`
bounds the number of loop iterations; every iteration consumes at least one
character, so `line.length + 1` is always sufficient (the fuel-exhausted
case is unreachable from `tokenize`). -/
def goTok : Nat → Bool → Bool → List (List Char) → List Char → List Char →
    List (List Char) × QuoteState
  | 0, _, _, toks, _, _ => (toks, QuoteState.none)
  | fuel + 1, sqm, dqm, toks, cur, line =>
    if line = [] then
      -- loop exit: trailing `if(cur.size() > 0) toks.push_back(...)`
      (if cur = [] then toks else toks ++ [cur], QuoteState.none)
    else if sqm then
      match breakOn squote line with
      | Option.none => (toks ++ [cur ++ line], QuoteState.unterminatedSingle)
      | Option.some (pre, post) => goTok fuel false dqm toks (cur ++ pre) post
    else if dqm then
      match breakOn dquote line with
      | Option.none => (toks ++ [cur ++ line], QuoteState.unterminatedDouble)
      | Option.some (pre, post) => goTok fuel sqm false toks (cur ++ pre) post
    else
      match breakOnAny line with
      | Option.none => (toks ++ [cur ++ line], QuoteState.none)
      | Option.some (pre, c, post) =>
        if c = space then
          if cur ++ pre = [] then goTok fuel sqm dqm toks [] post
          else goTok fuel sqm dqm (toks ++ [cur ++ pre]) [] post
        else if c = squote then goTok fuel true dqm toks (cur ++ pre) post
        else goTok fuel sqm true toks (cur ++ pre) post

/-- Embedding of `tokenize` (cmd.hpp lines 212-275): bash-like splitting with
single/double quoting, returning the tokens and the quote state. -/
def tokenize (line : List Char) : List (List Char) × QuoteState :=
  goTok (line.length + 1) false false [] [] line

/-! ### Numeric conversions: `from_string` / `to_string` for integral types

`std::from_chars` / `std::to_chars` (base 10) are modeled exactly: an
integral type `T` is represented by its value range `[lo, hi]` on `Int`
(`lo < 0` iff `T` is signed).  The error codes of `<charconv>` are kept so
that the `res.ec != std::errc{}` test of `from_string` (cmd.hpp line 64)
can be mirrored literally. -/

/-- The error code of a `std::from_chars` / `std::to_chars` call. -/
inductive Errc where
  | ok
  | invalidArgument
  | resultOutOfRange
  | valueTooLarge
deriving DecidableEq

/-- Decimal digit test of the base-10 `from_chars` grammar: the character
codes of `'0'`..`'9'` are `48`..`57`. -/
def isDig (c : Char) : Bool := 48 ≤ c.toNat && c.toNat ≤ 57

/-- Consume the maximal run of decimal digits, accumulating onto `acc`.
Returns the accumulated value, the number of digits consumed, and the
unconsumed remainder of the input.  This is the digit loop inside
`std::from_chars` for base 10, with the value kept exact (`Nat`) so that
the range check can be stated separately. -/
def parseDigits : List Char → Nat → Nat × Nat × List Char
  | [], acc => (acc, 0, [])
  | c :: cs, acc =>
    if isDig c then
      match parseDigits cs (acc * 10 + (c.toNat - 48)) with
      | (v, cnt, rest) => (v, cnt + 1, rest)
    else (acc, 0, c :: cs)

/-- Embedding of `std::from_chars(tok.data(), tok.data() + tok.size(), x)`
for an integral type of range `[lo, hi]`: the pattern is an optional minus
sign (signed types only, i.e. `lo < 0`) followed by a nonempty maximal run
of decimal digits.  Returns the error code, the parsed value (present only
on `Errc.ok`), and the unconsumed tail of the token; trailing characters
after the numeral are not an error, they are merely left unconsumed. -/
def fromChars (lo hi : Int) (s : List Char) : Errc × Option Int × List Char :=
  match s with
  | [] => (Errc.invalidArgument, Option.none, [])
  | c :: cs =>
    if c = '-' then
      if lo < 0 then
        match parseDigits cs 0 with
        | (v, cnt, rest) =>
          if cnt = 0 then (Errc.invalidArgument, Option.none, s)
          else if lo ≤ -(v : Int) then (Errc.ok, Option.some (-(v : Int)), rest)
          else (Errc.resultOutOfRange, Option.none, rest)
      else (Errc.invalidArgument, Option.none, s)
    else
      match parseDigits s 0 with
      | (v, cnt, rest) =>
        if cnt = 0 then (Errc.invalidArgument, Option.none, s)
        else if (v : Int) ≤ hi then (Errc.ok, Option.some (v : Int), rest)
        else (Errc.resultOutOfRange, Option.none, rest)

/-- Embedding of `from_string<T>::operator()` for an integral type of range
`[lo, hi]` (cmd.hpp lines 58-68): run `from_chars` over the whole token and
return the value unless `res.ec != std::errc{}`.  Note that `res.ptr` is
never examined, so an unconsumed tail of the token is NOT a failure. -/
def from_string_num (lo hi : Int) (tok : List Char) : Option Int :=
  match fromChars lo hi tok with
  | (Errc.ok, v, _) => v
  | _ => Option.none

/-- The decimal digit character for `n < 10` (ASCII `48 + n`). -/
def decChar (n : Nat) : Char := Char.ofNat (48 + n)

/-- The decimal digit string of a natural number, most significant digit
first, as produced by `std::to_chars` (base 10). -/
def natDigits (n : Nat) : List Char :=
  if _h : n < 10 then [decChar n]
  else natDigits (n / 10) ++ [decChar (n % 10)]
termination_by n
decreasing_by exact Nat.div_lt_self (by omega) (by omega)

/-- The exact character sequence `std::to_chars` produces for the integer
value `v` in base 10: the digits of `|v|`, preceded by a minus sign when
`v` is negative. -/
def intRepr (v : Int) : List Char :=
  if v < 0 then '-' :: natDigits (-v).toNat else natDigits v.toNat

/-- Embedding of `to_string<T>::operator()` for an integral type
(cmd.hpp lines 97-105): `std::to_chars` into `char buf[32]`.  When the
decimal text fits the 32-byte buffer the result is that text; otherwise
`std::to_chars` reports `errc::value_too_large` with `res.ptr == buf + 32`
and the function returns 32 bytes of unspecified buffer contents, modeled
here as `Option.none`. -/
def to_string_num (v : Int) : Option (List Char) :=
  if (intRepr v).length ≤ 32 then Option.some (intRepr v) else Option.none

/-- The numeric value of a run of decimal digit characters, most
significant first (used to state what `from_string` returns on a token
with trailing characters). -/
def digitsVal (ds : List Char) : Nat :=
  ds.foldl (fun a c => a * 10 + (c.toNat - 48)) 0

/-! ### The type-erased dispatcher

`erased_func::dispatch_func<Callable, R, Args...>` (cmd.hpp lines 139-172)
is modeled for the built-in conversion fragment: parameter types are
`std::string` (moved from the token), `std::string_view` (reads the token)
or an integral type of range `[lo, hi]`; the return type is `void` or
`std::string`.  Because `from_string<std::string>` takes its token by
value, move-constructed from `std::move(toks[is])`, a converted
`std::string` argument leaves the caller's token moved-from (empty, as
libstdc++'s move constructor leaves the source); the model therefore
tracks the caller's token array across the call. -/

/-- A declared parameter type of a registered callable. -/
inductive PType where
  | pstr
  | pview
  | pnum (lo hi : Int)
deriving DecidableEq

/-- A converted argument value. -/
inductive Val where
  | vstr (s : List Char)
  | vnum (n : Int)
deriving DecidableEq

/-- What a modeled callable returns: nothing (`void`) or an
`std::string`. -/
inductive RetV where
  | rvoid
  | rstr (s : List Char)
deriving DecidableEq

/-- One element of the tuple-construction
`from_string<remove_cvref_t<Args>>{}(std::move(toks[is]))`
(cmd.hpp lines 148-149): the conversion result for the token, paired with
the state the caller's token is left in afterwards (`[]`, moved-from, when
the parameter type is `std::string`; unchanged otherwise). -/
def convert1 : PType → List Char → Option Val × List Char
  | PType.pstr, t => (Option.some (Val.vstr t), [])
  | PType.pview, t => (Option.some (Val.vstr t), t)
  | PType.pnum lo hi, t => ((from_string_num lo hi t).map Val.vnum, t)

/-- The whole tuple construction: every token is converted to its declared
parameter type, left to right, regardless of earlier failures (the
`(!get<is>(optargs) || ...)` test runs only after the tuple is built).
Returns the conversion results and the final states of the tokens. -/
def convertAll : List PType → List (List Char) → List (Option Val) × List (List Char)
  | [], ts => ([], ts)
  | _ :: _, [] => ([], [])
  | p :: ps, t :: ts =>
    match convert1 p t, convertAll ps ts with
    | (v, t2), (vs, ts2) => (v :: vs, t2 :: ts2)

/-- Outcome of a dispatched call: the `std::optional<std::string>` result,
the caller's token array after the call, and whether the underlying
callable was invoked. -/
structure CallResult where
  ret : Option (List Char)
  toks : List (List Char)
  invoked : Bool
deriving DecidableEq

/-- Embedding of `erased_func::dispatch_func` (cmd.hpp lines 139-172) for a
callable of parameter types `params` and body `f`:
if `toks.size() != sizeof...(Args)` fail at once; otherwise convert every
token (tuple construction), fail if any conversion came back empty, and
otherwise invoke the callable and convert its result (`""` for `void`,
pass-through for `std::string`).  `filterMap id` extracts the converted
values, all present on that path (`*get<is>(optargs)`). -/
def dispatch_func (params : List PType) (f : List Val → RetV)
    (toks : List (List Char)) : CallResult :=
  if toks.length ≠ params.length then ⟨Option.none, toks, false⟩
  else
    let ovs := (convertAll params toks).1
    let toks2 := (convertAll params toks).2
    if ovs.any (fun o => o.isNone) then ⟨Option.none, toks2, false⟩
    else
      match f (ovs.filterMap id) with
      | RetV.rvoid => ⟨Option.some [], toks2, true⟩
      | RetV.rstr s => ⟨Option.some s, toks2, true⟩

/-- A registered erased function: its declared parameter types and its
behaviour on the converted arguments. -/
structure ErasedFunc where
  params : List PType
  impl : List Val → RetV

/-- Embedding of `registry::call(const std::string& name,
std::span<std::string> toks)` (cmd.hpp lines 302-310): look the name up in
the table (modeled as an association list with unique keys) and hand the
tokens to the bound erased function; an unknown name fails without
touching the tokens. -/
def registry_call (table : List (List Char × ErasedFunc)) (name : List Char)
    (toks : List (List Char)) : CallResult :=
  match table.find? (fun e => e.1 == name) with
  | Option.none => ⟨Option.none, toks, false⟩
  | Option.some e => dispatch_func e.2.params e.2.impl toks

end Cmd

namespace Cmd

/-! ### Helper lemmas about the numeric model -/

theorem parseDigits_stop (l : List Char) (acc : Nat)
    (h : ∀ c, l.head? = Option.some c → isDig c = false) :
    parseDigits l acc = (acc, 0, l) := by
  cases l with
  | nil => rfl
  | cons c cs =>
    have hc := h c rfl
    simp [parseDigits, hc]

theorem parseDigits_digits_append (ds : List Char) (hds : ∀ c ∈ ds, isDig c = true)
    (rest : List Char) (hrest : ∀ c, rest.head? = Option.some c → isDig c = false)
    (acc : Nat) :
    parseDigits (ds ++ rest) acc =
      (ds.foldl (fun a c => a * 10 + (c.toNat - 48)) acc, ds.length, rest) := by
  induction ds generalizing acc with
  | nil => simpa using parseDigits_stop rest acc hrest
  | cons d ds ih =>
    have hd : isDig d = true := hds d (by simp)
    have hds2 : ∀ c ∈ ds, isDig c = true := fun c hc => hds c (by simp [hc])
    simp [parseDigits, hd, ih hds2]

theorem parseDigits_fst_lt (l : List Char) (acc : Nat) :
    (parseDigits l acc).1 < (acc + 1) * 10 ^ l.length := by
  induction l generalizing acc with
  | nil => simp [parseDigits]
  | cons c cs ih =>
    by_cases hc : isDig c = true
    · have hd : c.toNat - 48 ≤ 9 := by
        have : c.toNat ≤ 57 := by
          have := hc
          simp [isDig] at this
          omega
        omega
      have h1 := ih (acc * 10 + (c.toNat - 48))
      have h2 : (acc * 10 + (c.toNat - 48) + 1) * 10 ^ cs.length ≤
          (acc + 1) * 10 ^ (c :: cs).length := by
        simp [List.length_cons, pow_succ]
        calc (acc * 10 + (c.toNat - 48) + 1) * 10 ^ cs.length
            ≤ ((acc + 1) * 10) * 10 ^ cs.length := by
              apply Nat.mul_le_mul_right
              omega
          _ = (acc + 1) * (10 ^ cs.length * 10) := by ring
      have : (parseDigits (c :: cs) acc).1 = (parseDigits cs (acc * 10 + (c.toNat - 48))).1 := by
        simp [parseDigits, hc]
      rw [this]
      exact Nat.lt_of_lt_of_le h1 h2
    · have hc2 : isDig c = false := by simpa using hc
      have : (parseDigits (c :: cs) acc).1 = acc := by simp [parseDigits, hc2]
      rw [this]
      have : (1 : Nat) ≤ 10 ^ (c :: cs).length := Nat.one_le_pow _ _ (by omega)
      calc acc < acc + 1 := Nat.lt_succ_self acc
        _ ≤ (acc + 1) * 10 ^ (c :: cs).length := Nat.le_mul_of_pos_right _ (by positivity)

theorem decChar_toNat (d : Nat) (h : d < 10) : (decChar d).toNat = 48 + d := by
  interval_cases d <;> decide

theorem decChar_isDig (d : Nat) (h : d < 10) : isDig (decChar d) = true := by
  interval_cases d <;> decide

end Cmd

namespace Cmd

theorem natDigits_ne_nil (n : Nat) : natDigits n ≠ [] := by
  rw [natDigits]
  split <;> simp

theorem natDigits_all_dig (n : Nat) : ∀ c ∈ natDigits n, isDig c = true := by
  induction n using natDigits.induct with
  | case1 n h =>
    rw [natDigits, dif_pos h]
    intro c hc
    simp at hc
    subst hc
    exact decChar_isDig n h
  | case2 n h ih =>
    rw [natDigits, dif_neg h]
    intro c hc
    rcases List.mem_append.mp hc with h1 | h2
    · exact ih c h1
    · simp at h2
      subst h2
      exact decChar_isDig _ (Nat.mod_lt _ (by omega))

theorem natDigits_foldl (n : Nat) : ∀ acc : Nat,
    (natDigits n).foldl (fun a c => a * 10 + (c.toNat - 48)) acc =
      acc * 10 ^ (natDigits n).length + n := by
  induction n using natDigits.induct with
  | case1 n h =>
    intro acc
    rw [natDigits, dif_pos h]
    simp [decChar_toNat n h]
  | case2 n h ih =>
    intro acc
    rw [natDigits, dif_neg h]
    rw [List.foldl_append, List.length_append]
    rw [ih acc]
    simp [decChar_toNat _ (Nat.mod_lt _ (by omega)), pow_succ]
    have h2 : n / 10 * 10 + n % 10 = n := by omega
    calc (acc * 10 ^ (natDigits (n / 10)).length + n / 10) * 10 + n % 10
        = acc * (10 ^ (natDigits (n / 10)).length * 10) + (n / 10 * 10 + n % 10) := by ring
      _ = acc * (10 ^ (natDigits (n / 10)).length * 10) + n := by rw [h2]

theorem natDigits_lt (n : Nat) : n < 10 ^ (natDigits n).length := by
  induction n using natDigits.induct with
  | case1 n h =>
    rw [natDigits, dif_pos h]
    simpa using h
  | case2 n h ih =>
    rw [natDigits, dif_neg h]
    rw [List.length_append]
    simp only [List.length_cons, List.length_nil]
    have h2 : n = n / 10 * 10 + n % 10 := by omega
    have h3 : n % 10 < 10 := Nat.mod_lt _ (by omega)
    calc n = n / 10 * 10 + n % 10 := h2
      _ < (n / 10 + 1) * 10 := by omega
      _ ≤ 10 ^ (natDigits (n / 10)).length * 10 := by
          exact Nat.mul_le_mul_right _ (by omega)
      _ = 10 ^ ((natDigits (n / 10)).length + 1) := by rw [pow_succ]

theorem natDigits_pow_le (n : Nat) (hn : 1 ≤ n) :
    10 ^ ((natDigits n).length - 1) ≤ n := by
  induction n using natDigits.induct with
  | case1 n h =>
    rw [natDigits, dif_pos h]
    simpa using hn
  | case2 n h ih =>
    rw [natDigits, dif_neg h]
    rw [List.length_append]
    simp only [List.length_cons, List.length_nil]
    have hq : 1 ≤ n / 10 := Nat.one_le_div_iff (by omega) |>.mpr (by omega)
    have h1 := ih hq
    have hlen : 1 ≤ (natDigits (n / 10)).length := by
      cases hnd : natDigits (n / 10) with
      | nil => exact absurd hnd (natDigits_ne_nil _)
      | cons a l => simp
    have : (natDigits (n / 10)).length + 1 - 1 = ((natDigits (n / 10)).length - 1) + 1 := by
      omega
    rw [this, pow_succ]
    calc 10 ^ ((natDigits (n / 10)).length - 1) * 10 ≤ n / 10 * 10 :=
          Nat.mul_le_mul_right _ h1
      _ ≤ n := Nat.div_mul_le_self n 10

end Cmd

namespace Cmd

theorem isDig_ne_minus (c : Char) (h : isDig c = true) : ¬ c = '-' := by
  intro he
  subst he
  exact absurd h (by decide)

theorem parseDigits_digits (ds : List Char) (hds : ∀ c ∈ ds, isDig c = true) (acc : Nat) :
    parseDigits ds acc = (ds.foldl (fun a c => a * 10 + (c.toNat - 48)) acc, ds.length, []) := by
  have h := parseDigits_digits_append ds hds [] (by simp) acc
  simpa using h

theorem from_string_num_intRepr (lo hi v : Int) (hlo : lo ≤ v) (hhi : v ≤ hi) :
    from_string_num lo hi (intRepr v) = Option.some v := by
  by_cases hv : v < 0
  · have hlo0 : lo < 0 := lt_of_le_of_lt hlo hv
    have hm : ((-v).toNat : Int) = -v := Int.toNat_of_nonneg (by omega)
    have hfold := natDigits_foldl (-v).toNat 0
    have hpd := parseDigits_digits (natDigits (-v).toNat) (natDigits_all_dig _) 0
    rw [hfold] at hpd
    simp only [Nat.zero_mul, Nat.zero_add] at hpd
    have hlen : (natDigits (-v).toNat).length ≠ 0 := by
      cases hnd : natDigits (-v).toNat with
      | nil => exact absurd hnd (natDigits_ne_nil _)
      | cons a l => simp
    rw [intRepr, if_pos hv]
    simp only [from_string_num, fromChars, if_pos rfl, if_pos hlo0, hpd, if_neg hlen]
    rw [if_pos (show lo ≤ -((-v).toNat : Int) by rw [hm]; omega)]
    rw [hm]
    simp
  · have hm : (v.toNat : Int) = v := Int.toNat_of_nonneg (by omega)
    have hfold := natDigits_foldl v.toNat 0
    have hpd := parseDigits_digits (natDigits v.toNat) (natDigits_all_dig _) 0
    rw [hfold] at hpd
    simp only [Nat.zero_mul, Nat.zero_add] at hpd
    rw [intRepr, if_neg hv]
    cases hnd : natDigits v.toNat with
    | nil => exact absurd hnd (natDigits_ne_nil _)
    | cons d ds =>
      have hdig : isDig d = true := by
        have := natDigits_all_dig v.toNat d
        rw [hnd] at this
        exact this (by simp)
      rw [hnd] at hpd
      simp only [from_string_num, fromChars, if_neg (isDig_ne_minus d hdig), hpd]
      rw [if_neg (by simp)]
      rw [if_pos (show ((v.toNat : Int)) ≤ hi by omega)]
      rw [hm]

theorem from_string_num_lt_pow (lo hi : Int) (s : List Char) (v : Int)
    (h : from_string_num lo hi s = Option.some v) : v < (10 : Int) ^ s.length := by
  have hpos : (0 : Int) < (10 : Int) ^ s.length := by positivity
  cases s with
  | nil => simp [from_string_num, fromChars] at h
  | cons c cs =>
    by_cases hc : c = '-'
    · by_cases hlo : lo < 0
      · rcases hpd : parseDigits cs 0 with ⟨pv, cnt, rest⟩
        simp only [from_string_num, fromChars, hc, if_pos rfl, if_pos hlo, hpd] at h
        split_ifs at h <;> simp at h
        all_goals
          have hnn : (0 : Int) ≤ (pv : Int) := Int.ofNat_nonneg pv
          linarith
      · simp [from_string_num, fromChars, hc, hlo] at h
    · rcases hpd : parseDigits (c :: cs) 0 with ⟨pv, cnt, rest⟩
      have hlt := parseDigits_fst_lt (c :: cs) 0
      rw [hpd] at hlt
      simp only [Nat.one_mul] at hlt
      have hlt2 : (pv : Int) < (10 : Int) ^ (c :: cs).length := by
        have := Int.ofNat_lt.mpr hlt
        push_cast at this
        simpa using this
      simp only [from_string_num, fromChars, if_neg hc, hpd] at h
      split_ifs at h
      simp at h
      linarith

end Cmd

namespace Cmd

theorem convertAll_fst (ps : List PType) (ts : List (List Char)) :
    (convertAll ps ts).1 = (ps.zip ts).map (fun pt => (convert1 pt.1 pt.2).1) := by
  induction ps generalizing ts with
  | nil => simp [convertAll]
  | cons p ps ih =>
    cases ts with
    | nil => simp [convertAll]
    | cons t ts => simp [convertAll, ih]

theorem goTok_tokens_ne_nil (fuel : Nat) : ∀ (sqm dqm : Bool)
    (toks : List (List Char)) (cur line : List Char),
    (∀ t ∈ toks, t ≠ []) → ∀ t ∈ (goTok fuel sqm dqm toks cur line).1, t ≠ [] := by
  induction fuel with
  | zero =>
    intro sqm dqm toks cur line htoks t ht
    exact htoks t ht
  | succ fuel ih =>
    intro sqm dqm toks cur line htoks t ht
    simp only [goTok] at ht
    by_cases hline : line = []
    · rw [if_pos hline] at ht
      by_cases hcur : cur = []
      · rw [if_pos hcur] at ht
        exact htoks t ht
      · rw [if_neg hcur] at ht
        rcases List.mem_append.mp ht with h1 | h2
        · exact htoks t h1
        · simp at h2
          subst h2
          exact hcur
    · rw [if_neg hline] at ht
      have hpush : ∀ (ext : List Char), ext ≠ [] → ∀ u ∈ toks ++ [cur ++ ext], u ≠ [] := by
        intro ext hext u hu
        rcases List.mem_append.mp hu with h1 | h2
        · exact htoks u h1
        · simp at h2
          subst h2
          intro hemp
          exact hext (List.append_eq_nil.mp hemp).2
      by_cases hsq : sqm = true
      · rw [if_pos hsq] at ht
        rcases hbr : breakOn squote line with _ | ⟨pre, post⟩
        · simp only [hbr] at ht
          exact hpush line hline t ht
        · simp only [hbr] at ht
          exact ih false dqm toks (cur ++ pre) post htoks t ht
      · rw [if_neg hsq] at ht
        by_cases hdq : dqm = true
        · rw [if_pos hdq] at ht
          rcases hbr : breakOn dquote line with _ | ⟨pre, post⟩
          · simp only [hbr] at ht
            exact hpush line hline t ht
          · simp only [hbr] at ht
            exact ih sqm false toks (cur ++ pre) post htoks t ht
        · rw [if_neg hdq] at ht
          rcases hbr : breakOnAny line with _ | ⟨pre, c, post⟩
          · simp only [hbr] at ht
            exact hpush line hline t ht
          · simp only [hbr] at ht
            by_cases hsp : c = space
            · rw [if_pos hsp] at ht
              by_cases hflush : cur ++ pre = []
              · rw [if_pos hflush] at ht
                exact ih sqm dqm toks [] post htoks t ht
              · rw [if_neg hflush] at ht
                refine ih sqm dqm (toks ++ [cur ++ pre]) [] post ?_ t ht
                intro u hu
                rcases List.mem_append.mp hu with h1 | h2
                · exact htoks u h1
                · simp at h2
                  subst h2
                  exact hflush
            · rw [if_neg hsp] at ht
              by_cases hq : c = squote
              · rw [if_pos hq] at ht
                exact ih true dqm toks (cur ++ pre) post htoks t ht
              · rw [if_neg hq] at ht
                exact ih sqm true toks (cur ++ pre) post htoks t ht

end Cmd

namespace Cmd

/-! ### Reusable facts about the 32-byte formatting buffer -/

theorem natDigits_len_gt (n k : Nat) (h : 10 ^ k ≤ n) : k < (natDigits n).length := by
  by_contra hle
  push_neg at hle
  have h1 := natDigits_lt n
  have hmono : (10 : Nat) ^ (natDigits n).length ≤ 10 ^ k :=
    Nat.pow_le_pow_right (by omega) hle
  exact absurd (lt_of_lt_of_le (lt_of_lt_of_le h1 hmono) h) (lt_irrefl _)

theorem intRepr_int128_max_long :
    32 < (intRepr 170141183460469231731687303715884105727).length := by
  have hnn : ¬ ((170141183460469231731687303715884105727 : Int) < 0) := by decide
  have htn : (170141183460469231731687303715884105727 : Int).toNat =
      170141183460469231731687303715884105727 := by decide
  rw [intRepr, if_neg hnn, htn]
  exact natDigits_len_gt _ 32 (by decide)

theorem to_string_num_int128_max :
    to_string_num 170141183460469231731687303715884105727 = Option.none := by
  rw [to_string_num, if_neg]
  have := intRepr_int128_max_long
  omega

end Cmd

namespace Cmd

/-! ### Claim theorems -/

/-- C1 (counterexample): the claim says `from_string<int>` rejects the token
`12abc`, but the code only checks `res.ec` and never `res.ptr`
(cmd.hpp lines 63-66), so `std::from_chars` succeeds on the `12` prefix and
the trailing `abc` is silently ignored: the result is `12`, not an empty
optional. -/
theorem from_string_trailing_chars_not_rejected :
    from_string_num (-2147483648) 2147483647 ['1', '2', 'a', 'b', 'c'] =
      Option.some 12 := by decide

/-- C1 (amended): for an integral type `[lo, hi]`, `from_string` applied to
a token that begins with a nonempty run of decimal digits whose value fits
the type, followed by any non-digit tail, succeeds with the value of that
digit prefix; the unconsumed tail is ignored because the code never
compares `res.ptr` with the end of the token. -/
theorem from_string_accepts_numeral_prefix (lo hi : Int) (ds rest : List Char)
    (hne : ds ≠ []) (hds : ∀ c ∈ ds, isDig c = true)
    (hrest : ∀ c, rest.head? = Option.some c → isDig c = false)
    (hhi : (digitsVal ds : Int) ≤ hi) :
    from_string_num lo hi (ds ++ rest) = Option.some ((digitsVal ds : Int)) := by
  simp only [digitsVal] at hhi ⊢
  cases ds with
  | nil => exact absurd rfl hne
  | cons d ds2 =>
    have hd : isDig d = true := hds d (by simp)
    have hpd := parseDigits_digits_append (d :: ds2) hds rest hrest 0
    simp only [List.cons_append] at hpd ⊢
    simp only [from_string_num, fromChars, if_neg (isDig_ne_minus d hd), hpd]
    rw [if_neg (by simp)]
    rw [if_pos hhi]

/-- C1 (witness for the amended theorem): `12abc` for a 32-bit int parses
to the prefix value `12`. -/
theorem from_string_accepts_numeral_prefix_witness :
    from_string_num (-2147483648) 2147483647 (['1', '2'] ++ ['a', 'b', 'c']) =
      Option.some ((digitsVal ['1', '2'] : Int)) :=
  from_string_accepts_numeral_prefix (-2147483648) 2147483647 ['1', '2'] ['a', 'b', 'c']
    (by decide) (by decide)
    (by
      intro c hc
      injection hc with h
      subst h
      decide)
    (by decide)

/-- C2 (code bug evaluation): on the input `a'`, whose last character is an
opening single quote, the `while` loop of `tokenize` exits because the
line is exhausted immediately after the quote was consumed, so the
function falls through to the normal end-of-line return and reports quote
state 0 (None) instead of the unterminated single quote the claim (and the
comment "returns the tokens and whether there is an unclosed quote",
cmd.hpp line 211) promise. -/
theorem tokenize_line_ending_at_open_quote :
    tokenize ['a', squote] = ([['a']], QuoteState.none) := by decide

/-- C7: adjacent quoted and unquoted segments concatenate into single
tokens with the quotes stripped: the line `a b'c d'e f'"g"'` tokenizes to
`a`, `bc de`, `f"g"` with no unterminated quote, and `f'"g"'` alone
tokenizes to `f"g"`. -/
theorem tokenize_adjacent_segments_concatenate :
    tokenize ['a', space, 'b', squote, 'c', space, 'd', squote, 'e', space,
        'f', squote, dquote, 'g', dquote, squote] =
      ([['a'], ['b', 'c', space, 'd', 'e'], ['f', dquote, 'g', dquote]],
        QuoteState.none) ∧
    tokenize ['f', squote, dquote, 'g', dquote, squote] =
      ([['f', dquote, 'g', dquote]], QuoteState.none) := by decide

/-- C9: a line consisting only of empty quoted spans (`''`, `""`, `''""`)
yields no tokens at all with quote state None, and, in general, `tokenize`
never emits an empty token: every emitted token is nonempty, so an
empty-string argument can never reach a command. -/
theorem tokenize_no_empty_tokens :
    tokenize [squote, squote] = ([], QuoteState.none) ∧
    tokenize [dquote, dquote] = ([], QuoteState.none) ∧
    tokenize [squote, squote, dquote, dquote] = ([], QuoteState.none) ∧
    ∀ line : List Char, (tokenize line).1.all (fun tk => !tk.isEmpty) = true := by
  refine ⟨by decide, by decide, by decide, ?_⟩
  intro line
  rw [List.all_eq_true]
  intro tk htk
  have hne := goTok_tokens_ne_nil (line.length + 1) false false [] [] line
    (by simp) tk htk
  cases tk with
  | nil => exact absurd rfl hne
  | cons a l => simp

end Cmd

namespace Cmd

/-- C3: with the arity correct, if converting any single token to its
declared parameter type comes back empty, the dispatched call returns an
empty optional and the underlying callable is never invoked — argument
binding is all-or-nothing (cmd.hpp lines 148-151). -/
theorem dispatch_func_all_or_nothing (params : List PType) (f : List Val → RetV)
    (toks : List (List Char)) (hlen : toks.length = params.length)
    (hfail : ∃ pt ∈ params.zip toks, (convert1 pt.1 pt.2).1 = Option.none) :
    (dispatch_func params f toks).ret = Option.none ∧
      (dispatch_func params f toks).invoked = false := by
  obtain ⟨pt, hmem, hnone⟩ := hfail
  have hany : ((convertAll params toks).1.any (fun o => o.isNone)) = true := by
    rw [convertAll_fst, List.any_eq_true]
    exact ⟨(convert1 pt.1 pt.2).1, List.mem_map.mpr ⟨pt, hmem, rfl⟩,
      by rw [hnone]; rfl⟩
  have hlen2 : ¬ toks.length ≠ params.length := fun h => h hlen
  constructor <;> simp only [dispatch_func, if_neg hlen2, hany, if_true]

/-- C3 (witness): a single int-typed parameter fed the non-numeric token
`a` fails with no invocation. -/
theorem dispatch_func_all_or_nothing_witness :
    (dispatch_func [PType.pnum 0 100] (fun _ => RetV.rvoid) [['a']]).ret =
        Option.none ∧
      (dispatch_func [PType.pnum 0 100] (fun _ => RetV.rvoid) [['a']]).invoked =
        false :=
  dispatch_func_all_or_nothing [PType.pnum 0 100] (fun _ => RetV.rvoid) [['a']]
    rfl ⟨(PType.pnum 0 100, ['a']), by decide, by decide⟩

/-- C4: when the token count differs from the declared arity, the
dispatched call fails immediately: the result is empty, the caller's
tokens are untouched (no conversion is attempted) and the callable is
never invoked (cmd.hpp lines 143-144). -/
theorem dispatch_func_arity_mismatch (params : List PType) (f : List Val → RetV)
    (toks : List (List Char)) (h : toks.length ≠ params.length) :
    dispatch_func params f toks = ⟨Option.none, toks, false⟩ := by
  simp only [dispatch_func, if_pos h]

/-- C4 (witness): a 1-argument callable called with 2 tokens fails with the
tokens unchanged and no invocation. -/
theorem dispatch_func_arity_mismatch_witness :
    dispatch_func [PType.pnum 0 100] (fun _ => RetV.rvoid) [['1'], ['2']] =
      ⟨Option.none, [['1'], ['2']], false⟩ :=
  dispatch_func_arity_mismatch [PType.pnum 0 100] (fun _ => RetV.rvoid)
    [['1'], ['2']] (by decide)

/-- C5 (code bug evaluation): `to_string` formats into `char buf[32]`
(cmd.hpp line 101, with the comment "TODO: check correct length"), but the
128-bit integral maximum `2^127 - 1 = 170141183460469231731687303715884105727`
needs 39 characters, so `std::to_chars` fails with `errc::value_too_large`
and the function returns 32 bytes of unspecified buffer contents (modeled
as `Option.none`): the buffer is NOT always large enough. -/
theorem to_string_buffer_overflows_for_int128 :
    32 < (intRepr 170141183460469231731687303715884105727).length ∧
      to_string_num 170141183460469231731687303715884105727 = Option.none := by
  constructor
  · exact intRepr_int128_max_long
  · exact to_string_num_int128_max

/-- C6 (code bug evaluation): the `from_string ∘ to_string` round trip
fails for the 128-bit integral maximum: `to_string` cannot even produce
the decimal text (the 32-byte buffer is too small, yielding unspecified
bytes), and no token of at most 32 characters can parse back to the value,
because a parsed value is always below `10^32`. -/
theorem round_trip_fails_beyond_buffer :
    to_string_num 170141183460469231731687303715884105727 = Option.none ∧
      ∀ s : List Char, s.length ≤ 32 →
        from_string_num (-170141183460469231731687303715884105728)
            170141183460469231731687303715884105727 s ≠
          Option.some 170141183460469231731687303715884105727 := by
  constructor
  · exact to_string_num_int128_max
  · intro s hlen h
    have hb := from_string_num_lt_pow _ _ _ _ h
    have hmono : (10 : Int) ^ s.length ≤ (10 : Int) ^ 32 :=
      pow_le_pow_right₀ (by norm_num) hlen
    have hge : ((10 : Int) ^ 32 : Int) ≤ 170141183460469231731687303715884105727 := by
      norm_num
    exact absurd (lt_of_lt_of_le (lt_of_lt_of_le hb hmono) hge) (lt_irrefl _)

/-- C6 (witness): the token `9` (length 1 ≤ 32) does not parse back to the
128-bit maximum. -/
theorem round_trip_fails_beyond_buffer_witness :
    to_string_num 170141183460469231731687303715884105727 = Option.none ∧
      from_string_num (-170141183460469231731687303715884105728)
          170141183460469231731687303715884105727 ['9'] ≠
        Option.some 170141183460469231731687303715884105727 :=
  ⟨round_trip_fails_beyond_buffer.1,
    round_trip_fails_beyond_buffer.2 ['9'] (by decide)⟩

/-- C8: a registered callable with no return value (`void`), dispatched
with the right arity and tokens that all convert, yields a present
optional carrying the empty string (cmd.hpp lines 166-170), and the
callable is invoked; failure, by contrast, is an absent optional. -/
theorem dispatch_func_void_returns_empty_string (params : List PType)
    (f : List Val → RetV) (toks : List (List Char))
    (hvoid : ∀ vs, f vs = RetV.rvoid)
    (hlen : toks.length = params.length)
    (hok : ∀ pt ∈ params.zip toks, (convert1 pt.1 pt.2).1 ≠ Option.none) :
    (dispatch_func params f toks).ret = Option.some [] ∧
      (dispatch_func params f toks).invoked = true := by
  have hany : ((convertAll params toks).1.any (fun o => o.isNone)) = false := by
    rw [convertAll_fst]
    rw [List.any_eq_false]
    intro o ho
    rcases List.mem_map.mp ho with ⟨pt, hmem, rfl⟩
    have hne := hok pt hmem
    cases hcv : (convert1 pt.1 pt.2).1 with
    | none => exact absurd hcv hne
    | some v => simp
  have hlen2 : ¬ toks.length ≠ params.length := fun h => h hlen
  constructor <;>
    simp only [dispatch_func, if_neg hlen2, hany, Bool.false_eq_true, if_false,
      hvoid]

/-- C8 (witness): a void callable with one int parameter given the token
`5` succeeds with the empty string as result. -/
theorem dispatch_func_void_returns_empty_string_witness :
    (dispatch_func [PType.pnum 0 9] (fun _ => RetV.rvoid) [['5']]).ret =
        Option.some [] ∧
      (dispatch_func [PType.pnum 0 9] (fun _ => RetV.rvoid) [['5']]).invoked =
        true :=
  dispatch_func_void_returns_empty_string [PType.pnum 0 9] (fun _ => RetV.rvoid)
    [['5']] (fun _ => rfl) rfl (by decide)

/-- C10: `registry::call(name, toks)` can leave the caller's token strings
modified even though the call failed and no function was invoked: with a
callable of parameter types `(std::string, int)` and tokens `abc xyz`, the
first token is moved from during tuple construction before the second
conversion fails, so the caller is left with `"" xyz`, an empty result and
no invocation (cmd.hpp lines 146-151, 302-310). -/
theorem registry_call_mutates_tokens_on_failure :
    ∃ (table : List (List Char × ErasedFunc)) (name : List Char)
      (toks : List (List Char)),
      (registry_call table name toks).ret = Option.none ∧
      (registry_call table name toks).invoked = false ∧
      (registry_call table name toks).toks ≠ toks := by
  refine ⟨[(['f'], ⟨[PType.pstr, PType.pnum 0 100], fun _ => RetV.rvoid⟩)],
    ['f'], [['a', 'b', 'c'], ['x', 'y', 'z']], ?_, ?_, ?_⟩ <;> decide

end Cmd

namespace Cmd

/-- C9 (witness): the general no-empty-token fact evaluated on the
concrete line `a''`. -/
theorem tokenize_no_empty_tokens_witness :
    (tokenize ['a', squote, squote]).1.all (fun tk => !tk.isEmpty) = true :=
  tokenize_no_empty_tokens.2.2.2 ['a', squote, squote]

end Cmd
